import Mathlib

/-!
Shallow embedding of the PR classification and notification aggregation
engine of `src/app.js` (pr-poker), together with theorems settling the
frozen claims about it.

Modelling conventions:
- timestamps (`created_at`, `submitted_at`) are epoch milliseconds as `Int`,
  matching the numeric value of a JS `Date`;
- a configuration environment variable read through `parseInt(...)` is
  modelled as `Option Int` (`none` for an unset or unparsable value, i.e. a
  `NaN` result);
- the JS `Map` of `latestReviewByUser` and the plain object
  `individualMessages` are modelled as insertion-ordered association lists,
  matching JS key-insertion-order semantics;
- `Array.prototype.sort` (stable since ES2019) is modelled by a stable
  insertion sort on the comparator key.
-/

namespace PrPoker

/-- Review record (`review` elements of `listReviews`): reviewer handle
(`review.user.login`), state string (GitHub API values such as
`APPROVED`, `CHANGES_REQUESTED`), and submission timestamp
(`review.submitted_at`, epoch ms). -/
structure Review where
  reviewer : String
  state : String
  submitted_at : Int
deriving DecidableEq, Repr

/-- Pull-request record as consumed by the engine, with its pre-fetched
review list (the code fetches `listReviews` per PR inside the loop; the
result is a pure attribute of the PR for the run). -/
structure PullRequest where
  repo : String
  number : Nat
  author : String
  created_at : Int
  draft : Bool
  requested_reviewers : List String
  requested_teams : List String
  reviews : List Review
deriving DecidableEq, Repr

/-- The four classification buckets of the loop at `src/app.js:133-175`. -/
inductive Category where
  | changesRequested
  | approved
  | old
  | other
deriving DecidableEq, Repr

/-- JS `parseInt(env) || d`: `none` models `NaN` (unset or unparsable), and
a parsed `0` is falsy, so both fall back to the default `d`
(`src/app.js:28-29`). -/
def parseIntOr (v : Option Int) (d : Int) : Int :=
  match v with
  | none => d
  | some n => if n = 0 then d else n

/-- `const approvalThreshold = parseInt(process.env.APPROVAL_THRESHOLD) || 2`
(`src/app.js:28`). -/
def approvalThreshold (env : Option Int) : Int :=
  parseIntOr env 2

/-- `const oldPRThresholdDays = parseInt(process.env.OLD_PR_THRESHOLD_DAYS) || 7`
(`src/app.js:29`). -/
def oldPRThresholdDays (env : Option Int) : Int :=
  parseIntOr env 7

/-- Milliseconds in a day. -/
def msPerDay : Int := 86400000

/-- `oldPRThresholdDate`: today's date moved back by the configured number
of days (`src/app.js:129-130`), as epoch ms. -/
def oldPRThresholdDate (now days : Int) : Int :=
  now - days * msPerDay

/-- Relevance test for one PR (`src/app.js:101-117`): drafts are skipped
first; otherwise the PR matches when its author is a tracked member, or a
requested individual reviewer is a tracked member, or a requested team is a
tracked team. -/
def prIncluded (teamMembers teams : List String) (pr : PullRequest) : Bool :=
  if pr.draft then false
  else
    teamMembers.contains pr.author
      || pr.requested_reviewers.any (fun r => teamMembers.contains r)
      || pr.requested_teams.any (fun t => teams.contains t)

/-- The list `matchingPRs` before sorting: PRs in discovery order
(repository iteration order, then source order) that pass the relevance
test. -/
def matchingPRs (teamMembers teams : List String) (prs : List PullRequest) :
    List PullRequest :=
  prs.filter (prIncluded teamMembers teams)

/-- Stable insertion of a PR into a list ascending by `created_at`: the new
element goes before the first strictly-later-or-equal element it does not
precede, i.e. after every element whose timestamp is strictly smaller and
before every element it ties with that came later in the original order. -/
def insertByCreated (x : PullRequest) : List PullRequest → List PullRequest
  | [] => [x]
  | y :: ys =>
    if x.created_at ≤ y.created_at then x :: y :: ys
    else y :: insertByCreated x ys

/-- Stable ascending sort by `created_at`, modelling
`matchingPRs.sort((a, b) => new Date(a.created_at) - new Date(b.created_at))`
(`src/app.js:121`; `Array.prototype.sort` is stable). -/
def sortByCreated : List PullRequest → List PullRequest
  | [] => []
  | x :: xs => insertByCreated x (sortByCreated xs)

/-- Lookup in an insertion-ordered association list (JS `Map.get` /
property read). -/
def objFind {β : Type} (m : List (String × β)) (k : String) : Option β :=
  match m with
  | [] => none
  | (k2, v) :: rest => if k2 = k then some v else objFind rest k

/-- Update in an insertion-ordered association list (JS `Map.set` /
property write): an existing key keeps its position, a new key is appended
at the end. -/
def objSet {β : Type} (m : List (String × β)) (k : String) (v : β) :
    List (String × β) :=
  match m with
  | [] => [(k, v)]
  | (k2, v2) :: rest =>
    if k2 = k then (k, v) :: rest else (k2, v2) :: objSet rest k v

/-- One step of the `latestReviewByUser` accumulation (`src/app.js:142-147`):
a review is stored when the reviewer has no entry yet or the incoming
submission timestamp is strictly greater than the stored one. -/
def latestStep (m : List (String × Review)) (review : Review) :
    List (String × Review) :=
  match objFind m review.reviewer with
  | none => objSet m review.reviewer review
  | some prev =>
    if prev.submitted_at < review.submitted_at then
      objSet m review.reviewer review
    else m

/-- The `latestReviewByUser` map after scanning all reviews of a PR
(`src/app.js:141-147`). -/
def latestReviewByUser (reviews : List Review) : List (String × Review) :=
  reviews.foldl latestStep []

/-- `Array.from(latestReviewByUser.values())` (`src/app.js:150`): the
retained review per reviewer, in key-insertion order. -/
def latestReviews (reviews : List Review) : List Review :=
  (latestReviewByUser reviews).map Prod.snd

/-- `latestReviews.some(review => review.state === 'CHANGES_REQUESTED')`
(`src/app.js:153`). -/
def hasChangesRequested (reviews : List Review) : Bool :=
  (latestReviews reviews).any (fun r => r.state == "CHANGES_REQUESTED")

/-- Number of retained reviews in state `APPROVED` (`src/app.js:160`). -/
def approvalsCount (reviews : List Review) : Nat :=
  ((latestReviews reviews).filter (fun r => r.state == "APPROVED")).length

/-- The classification of one PR, following the early-exit chain of
`src/app.js:152-174`: changes requested, else enough approvals, else
created strictly before the old-PR threshold date, else other. -/
def categorize (threshold thresholdDate : Int) (pr : PullRequest) : Category :=
  if hasChangesRequested pr.reviews then Category.changesRequested
  else if threshold ≤ (approvalsCount pr.reviews : Int) then Category.approved
  else if pr.created_at < thresholdDate then Category.old
  else Category.other

/-- The four category arrays of the loop (`src/app.js:124-127`). -/
structure Buckets where
  olderPRs : List PullRequest
  approvedPRs : List PullRequest
  changesRequestedPRs : List PullRequest
  otherPRs : List PullRequest
deriving DecidableEq, Repr

/-- One iteration of the categorisation loop: push the PR into the single
bucket selected by its category (`src/app.js:133-175`). -/
def bucketStep (threshold thresholdDate : Int) (b : Buckets)
    (pr : PullRequest) : Buckets :=
  match categorize threshold thresholdDate pr with
  | Category.changesRequested =>
    { b with changesRequestedPRs := b.changesRequestedPRs ++ [pr] }
  | Category.approved => { b with approvedPRs := b.approvedPRs ++ [pr] }
  | Category.old => { b with olderPRs := b.olderPRs ++ [pr] }
  | Category.other => { b with otherPRs := b.otherPRs ++ [pr] }

/-- The categorisation loop over the sorted matching PRs
(`src/app.js:133-175`). -/
def categorizeAll (threshold thresholdDate : Int) (prs : List PullRequest) :
    Buckets :=
  prs.foldl (bucketStep threshold thresholdDate) ⟨[], [], [], []⟩

/-- The three sequences of one recipient's individual message
(`src/app.js:249-253`). -/
structure Digest where
  assignedPRs : List PullRequest
  approvedPRs : List PullRequest
  changesRequestedPRs : List PullRequest
deriving DecidableEq, Repr

/-- The freshly-created entry of `individualMessages[slackUser]`
(`src/app.js:249-253`). -/
def emptyDigest : Digest := ⟨[], [], []⟩

/-- The digest currently recorded for a Slack user, the empty digest when
the key is absent (get-or-create read before each push). -/
def msgGet (m : List (String × Digest)) (u : String) : Digest :=
  (objFind m u).getD emptyDigest

/-- Push a PR onto a user's `assignedPRs` sequence, creating the entry when
absent (`src/app.js:245-257`). -/
def pushAssigned (m : List (String × Digest)) (u : String)
    (pr : PullRequest) : List (String × Digest) :=
  objSet m u { msgGet m u with assignedPRs := (msgGet m u).assignedPRs ++ [pr] }

/-- Push a PR onto a user's `approvedPRs` sequence (`src/app.js:260-272`). -/
def pushApproved (m : List (String × Digest)) (u : String)
    (pr : PullRequest) : List (String × Digest) :=
  objSet m u { msgGet m u with approvedPRs := (msgGet m u).approvedPRs ++ [pr] }

/-- Push a PR onto a user's `changesRequestedPRs` sequence
(`src/app.js:275-287`). -/
def pushCR (m : List (String × Digest)) (u : String)
    (pr : PullRequest) : List (String × Digest) :=
  objSet m u
    { msgGet m u with
      changesRequestedPRs := (msgGet m u).changesRequestedPRs ++ [pr] }

/-- The `assignedTeamMembers.forEach` loop (`src/app.js:242-257`): requested
reviewers are first filtered to tracked team members, then each one that
resolves through the GitHub-to-Slack map gets the PR appended to their
`assignedPRs`. -/
def addAssignedReviewers (slackMap : String → Option String)
    (teamMembers : List String) (m : List (String × Digest))
    (pr : PullRequest) : List (String × Digest) :=
  (pr.requested_reviewers.filter (fun r => teamMembers.contains r)).foldl
    (fun m a =>
      match slackMap a with
      | some u => pushAssigned m u pr
      | none => m) m

/-- The approved-author block (`src/app.js:260-272`): when the PR is in the
approved bucket and its author resolves, push onto the author's
`approvedPRs`. -/
def authorPushApproved (slackMap : String → Option String)
    (threshold thresholdDate : Int) (m : List (String × Digest))
    (pr : PullRequest) : List (String × Digest) :=
  if categorize threshold thresholdDate pr = Category.approved then
    match slackMap pr.author with
    | some u => pushApproved m u pr
    | none => m
  else m

/-- The changes-requested-author block (`src/app.js:275-287`). -/
def authorPushCR (slackMap : String → Option String)
    (threshold thresholdDate : Int) (m : List (String × Digest))
    (pr : PullRequest) : List (String × Digest) :=
  if categorize threshold thresholdDate pr = Category.changesRequested then
    match slackMap pr.author with
    | some u => pushCR m u pr
    | none => m
  else m

/-- One iteration of the per-PR digest loop (`src/app.js:238-288`): assigned
reviewers first, then the approved-author push, then the
changes-requested-author push. -/
def processPR (slackMap : String → Option String) (teamMembers : List String)
    (threshold thresholdDate : Int) (m : List (String × Digest))
    (pr : PullRequest) : List (String × Digest) :=
  authorPushCR slackMap threshold thresholdDate
    (authorPushApproved slackMap threshold thresholdDate
      (addAssignedReviewers slackMap teamMembers m pr) pr) pr

/-- The `individualMessages` object after the digest loop over the sorted
matching PRs (`src/app.js:236-288`). -/
def individualMessages (slackMap : String → Option String)
    (teamMembers : List String) (threshold thresholdDate : Int)
    (prs : List PullRequest) : List (String × Digest) :=
  prs.foldl (processPR slackMap teamMembers threshold thresholdDate) []

/-- The sorted relevant-PR list the summary and digest loops iterate over
(`src/app.js:86-121`). -/
def sortedMatchingPRs (teamMembers teams : List String)
    (prs : List PullRequest) : List PullRequest :=
  sortByCreated (matchingPRs teamMembers teams prs)

/-- Number of times one PR is pushed onto user `u`'s `assignedPRs`
sequence: requested reviewers filtered to tracked team members, then to
those resolving to `u`. -/
def countAssigned (slackMap : String → Option String)
    (teamMembers : List String) (u : String) (pr : PullRequest) : Nat :=
  ((pr.requested_reviewers.filter (fun r => teamMembers.contains r)).filter
    (fun r => slackMap r == some u)).length

/-! ## Helper lemmas about the stable sort -/

theorem mem_insertByCreated {x b : PullRequest} {l : List PullRequest} :
    b ∈ insertByCreated x l ↔ b = x ∨ b ∈ l := by
  induction l with
  | nil => simp [insertByCreated]
  | cons y ys ih =>
    rw [insertByCreated]
    by_cases hxy : x.created_at ≤ y.created_at
    · rw [if_pos hxy]
      simp
    · rw [if_neg hxy]
      simp [ih]
      tauto

theorem pairwise_insertByCreated (x : PullRequest) (l : List PullRequest)
    (h : l.Pairwise (fun a b => a.created_at ≤ b.created_at)) :
    (insertByCreated x l).Pairwise
      (fun a b => a.created_at ≤ b.created_at) := by
  induction l with
  | nil => simp [insertByCreated]
  | cons y ys ih =>
    rcases List.pairwise_cons.mp h with ⟨hy, hys⟩
    rw [insertByCreated]
    by_cases hxy : x.created_at ≤ y.created_at
    · rw [if_pos hxy]
      refine List.pairwise_cons.mpr ⟨?_, h⟩
      intro b hb
      rcases List.mem_cons.mp hb with rfl | hb2
      · exact hxy
      · exact le_trans hxy (hy b hb2)
    · rw [if_neg hxy]
      refine List.pairwise_cons.mpr ⟨?_, ih hys⟩
      intro b hb
      rcases mem_insertByCreated.mp hb with rfl | hb2
      · omega
      · exact hy b hb2

theorem sortByCreated_sorted (l : List PullRequest) :
    (sortByCreated l).Pairwise (fun a b => a.created_at ≤ b.created_at) := by
  induction l with
  | nil => simp [sortByCreated]
  | cons x xs ih =>
    rw [sortByCreated]
    exact pairwise_insertByCreated x _ ih

theorem filter_insertByCreated (x : PullRequest) (l : List PullRequest)
    (k : Int) :
    (insertByCreated x l).filter (fun p => p.created_at == k) =
      (if x.created_at == k then [x] else []) ++
        l.filter (fun p => p.created_at == k) := by
  induction l with
  | nil =>
    by_cases h : (x.created_at == k) = true <;>
      simp [insertByCreated, List.filter, h]
  | cons y ys ih =>
    rw [insertByCreated]
    by_cases hxy : x.created_at ≤ y.created_at
    · rw [if_pos hxy]
      by_cases hx : (x.created_at == k) = true <;>
        simp [List.filter_cons, hx]
    · rw [if_neg hxy]
      rw [List.filter_cons, List.filter_cons, ih]
      by_cases hy : (y.created_at == k) = true
      · have hx : ¬ (x.created_at == k) = true := by
          intro hc
          have h1 : y.created_at = k := by simpa using hy
          have h2 : x.created_at = k := by simpa using hc
          omega
        simp [hy, hx]
      · simp [hy]

theorem filter_sortByCreated (l : List PullRequest) (k : Int) :
    (sortByCreated l).filter (fun p => p.created_at == k) =
      l.filter (fun p => p.created_at == k) := by
  induction l with
  | nil => rfl
  | cons x xs ih =>
    rw [sortByCreated, filter_insertByCreated, ih, List.filter_cons]
    by_cases h : (x.created_at == k) = true <;> simp [h]

/-! ## Helper lemma: the categorisation loop builds bucket-wise filters -/

theorem foldl_bucketStep (threshold thresholdDate : Int)
    (l : List PullRequest) (b : Buckets) :
    l.foldl (bucketStep threshold thresholdDate) b =
      ⟨b.olderPRs ++ l.filter
          (fun pr => categorize threshold thresholdDate pr == Category.old),
        b.approvedPRs ++ l.filter
          (fun pr =>
            categorize threshold thresholdDate pr == Category.approved),
        b.changesRequestedPRs ++ l.filter
          (fun pr =>
            categorize threshold thresholdDate pr ==
              Category.changesRequested),
        b.otherPRs ++ l.filter
          (fun pr =>
            categorize threshold thresholdDate pr == Category.other)⟩ := by
  induction l generalizing b with
  | nil => simp
  | cons pr rest ih =>
    rw [List.foldl_cons, ih]
    cases hc : categorize threshold thresholdDate pr <;>
      simp [bucketStep, hc, List.filter_cons]

theorem categorizeAll_eq_filters (threshold thresholdDate : Int)
    (l : List PullRequest) :
    categorizeAll threshold thresholdDate l =
      ⟨l.filter
          (fun pr => categorize threshold thresholdDate pr == Category.old),
        l.filter
          (fun pr =>
            categorize threshold thresholdDate pr == Category.approved),
        l.filter
          (fun pr =>
            categorize threshold thresholdDate pr ==
              Category.changesRequested),
        l.filter
          (fun pr =>
            categorize threshold thresholdDate pr == Category.other)⟩ := by
  rw [categorizeAll, foldl_bucketStep]
  simp

/-! ## Helper lemmas about the digest accumulator -/

theorem objFind_objSet {β : Type} (m : List (String × β)) (k u : String)
    (v : β) :
    objFind (objSet m k v) u = if k = u then some v else objFind m u := by
  induction m with
  | nil => simp [objSet, objFind]
  | cons p rest ih =>
    obtain ⟨k2, v2⟩ := p
    by_cases h : k2 = k
    · subst h
      by_cases h2 : k2 = u <;> simp [objSet, objFind, h2]
    · by_cases h2 : k2 = u
      · subst h2
        have hku : ¬ k = k2 := fun hku => h hku.symm
        simp [objSet, objFind, h, hku]
      · simp [objSet, objFind, h, h2, ih]

theorem msgGet_objSet (m : List (String × Digest)) (k u : String)
    (d : Digest) :
    msgGet (objSet m k d) u = if k = u then d else msgGet m u := by
  unfold msgGet
  rw [objFind_objSet]
  by_cases h : k = u <;> simp [h]

theorem msgGet_pushAssigned (m : List (String × Digest)) (u v : String)
    (pr : PullRequest) :
    msgGet (pushAssigned m u pr) v =
      if u = v then
        ⟨(msgGet m u).assignedPRs ++ [pr], (msgGet m u).approvedPRs,
          (msgGet m u).changesRequestedPRs⟩
      else msgGet m v := by
  unfold pushAssigned
  rw [msgGet_objSet]

theorem msgGet_pushApproved (m : List (String × Digest)) (u v : String)
    (pr : PullRequest) :
    msgGet (pushApproved m u pr) v =
      if u = v then
        ⟨(msgGet m u).assignedPRs, (msgGet m u).approvedPRs ++ [pr],
          (msgGet m u).changesRequestedPRs⟩
      else msgGet m v := by
  unfold pushApproved
  rw [msgGet_objSet]

theorem msgGet_pushCR (m : List (String × Digest)) (u v : String)
    (pr : PullRequest) :
    msgGet (pushCR m u pr) v =
      if u = v then
        ⟨(msgGet m u).assignedPRs, (msgGet m u).approvedPRs,
          (msgGet m u).changesRequestedPRs ++ [pr]⟩
      else msgGet m v := by
  unfold pushCR
  rw [msgGet_objSet]

theorem msgGet_foldAssign (slackMap : String → Option String)
    (pr : PullRequest) (rs : List String) (m : List (String × Digest))
    (u : String) :
    msgGet (rs.foldl (fun acc a =>
        match slackMap a with
        | some w => pushAssigned acc w pr
        | none => acc) m) u =
      ⟨(msgGet m u).assignedPRs ++
          List.replicate
            ((rs.filter (fun r => slackMap r == some u)).length) pr,
        (msgGet m u).approvedPRs, (msgGet m u).changesRequestedPRs⟩ := by
  induction rs generalizing m with
  | nil => simp
  | cons a rest ih =>
    rw [List.foldl_cons]
    cases hsa : slackMap a with
    | none =>
      simp only [hsa]
      rw [ih]
      simp [List.filter_cons, hsa]
    | some w =>
      simp only [hsa]
      rw [ih, msgGet_pushAssigned]
      by_cases hw : w = u
      · subst hw
        rw [if_pos rfl]
        simp [List.filter_cons, hsa, List.replicate_succ]
      · rw [if_neg hw]
        have hne : (slackMap a == some u) = false := by
          simp [hsa, hw]
        simp [List.filter_cons, hne]

theorem msgGet_addAssignedReviewers (slackMap : String → Option String)
    (teamMembers : List String) (m : List (String × Digest))
    (pr : PullRequest) (u : String) :
    msgGet (addAssignedReviewers slackMap teamMembers m pr) u =
      ⟨(msgGet m u).assignedPRs ++
          List.replicate (countAssigned slackMap teamMembers u pr) pr,
        (msgGet m u).approvedPRs, (msgGet m u).changesRequestedPRs⟩ := by
  unfold addAssignedReviewers countAssigned
  rw [msgGet_foldAssign]

theorem msgGet_authorPushApproved (slackMap : String → Option String)
    (threshold thresholdDate : Int) (m : List (String × Digest))
    (pr : PullRequest) (u : String) :
    msgGet (authorPushApproved slackMap threshold thresholdDate m pr) u =
      ⟨(msgGet m u).assignedPRs,
        (msgGet m u).approvedPRs ++
          (if categorize threshold thresholdDate pr = Category.approved ∧
              slackMap pr.author = some u then [pr] else []),
        (msgGet m u).changesRequestedPRs⟩ := by
  unfold authorPushApproved
  by_cases hc : categorize threshold thresholdDate pr = Category.approved
  · rw [if_pos hc]
    cases hsa : slackMap pr.author with
    | none => simp [hc, hsa]
    | some w =>
      rw [msgGet_pushApproved]
      by_cases hw : w = u
      · subst hw
        simp [hc, hsa]
      · simp [hc, hsa, hw]
  · rw [if_neg hc]
    simp [hc]

theorem msgGet_authorPushCR (slackMap : String → Option String)
    (threshold thresholdDate : Int) (m : List (String × Digest))
    (pr : PullRequest) (u : String) :
    msgGet (authorPushCR slackMap threshold thresholdDate m pr) u =
      ⟨(msgGet m u).assignedPRs, (msgGet m u).approvedPRs,
        (msgGet m u).changesRequestedPRs ++
          (if categorize threshold thresholdDate pr =
                Category.changesRequested ∧
              slackMap pr.author = some u then [pr] else [])⟩ := by
  unfold authorPushCR
  by_cases hc : categorize threshold thresholdDate pr =
      Category.changesRequested
  · rw [if_pos hc]
    cases hsa : slackMap pr.author with
    | none => simp [hc, hsa]
    | some w =>
      rw [msgGet_pushCR]
      by_cases hw : w = u
      · subst hw
        simp [hc, hsa]
      · simp [hc, hsa, hw]
  · rw [if_neg hc]
    simp [hc]

theorem msgGet_processPR (slackMap : String → Option String)
    (teamMembers : List String) (threshold thresholdDate : Int)
    (m : List (String × Digest)) (pr : PullRequest) (u : String) :
    msgGet (processPR slackMap teamMembers threshold thresholdDate m pr) u =
      ⟨(msgGet m u).assignedPRs ++
          List.replicate (countAssigned slackMap teamMembers u pr) pr,
        (msgGet m u).approvedPRs ++
          (if categorize threshold thresholdDate pr = Category.approved ∧
              slackMap pr.author = some u then [pr] else []),
        (msgGet m u).changesRequestedPRs ++
          (if categorize threshold thresholdDate pr =
                Category.changesRequested ∧
              slackMap pr.author = some u then [pr] else [])⟩ := by
  unfold processPR
  rw [msgGet_authorPushCR, msgGet_authorPushApproved,
    msgGet_addAssignedReviewers]

theorem msgGet_foldl_processPR (slackMap : String → Option String)
    (teamMembers : List String) (threshold thresholdDate : Int)
    (l : List PullRequest) (m : List (String × Digest)) (u : String) :
    msgGet (l.foldl (processPR slackMap teamMembers threshold thresholdDate)
        m) u =
      ⟨(msgGet m u).assignedPRs ++
          (l.map (fun pr =>
            List.replicate (countAssigned slackMap teamMembers u pr)
              pr)).flatten,
        (msgGet m u).approvedPRs ++ l.filter
          (fun pr =>
            (categorize threshold thresholdDate pr == Category.approved) &&
              (slackMap pr.author == some u)),
        (msgGet m u).changesRequestedPRs ++ l.filter
          (fun pr =>
            (categorize threshold thresholdDate pr ==
                Category.changesRequested) &&
              (slackMap pr.author == some u))⟩ := by
  induction l generalizing m with
  | nil => simp
  | cons pr rest ih =>
    rw [List.foldl_cons, ih, msgGet_processPR]
    simp only [List.map_cons, List.flatten_cons, List.filter_cons,
      Digest.mk.injEq]
    refine ⟨?_, ?_, ?_⟩
    · simp [List.append_assoc]
    · by_cases hp : categorize threshold thresholdDate pr = Category.approved
      · by_cases hq : slackMap pr.author = some u <;>
          simp [hp, hq, List.append_assoc]
      · simp [hp]
    · by_cases hp : categorize threshold thresholdDate pr =
          Category.changesRequested
      · by_cases hq : slackMap pr.author = some u <;>
          simp [hp, hq, List.append_assoc]
      · simp [hp]

theorem msgGet_individualMessages (slackMap : String → Option String)
    (teamMembers : List String) (threshold thresholdDate : Int)
    (l : List PullRequest) (u : String) :
    msgGet (individualMessages slackMap teamMembers threshold thresholdDate
        l) u =
      ⟨(l.map (fun pr =>
          List.replicate (countAssigned slackMap teamMembers u pr)
            pr)).flatten,
        l.filter
          (fun pr =>
            (categorize threshold thresholdDate pr == Category.approved) &&
              (slackMap pr.author == some u)),
        l.filter
          (fun pr =>
            (categorize threshold thresholdDate pr ==
                Category.changesRequested) &&
              (slackMap pr.author == some u))⟩ := by
  rw [individualMessages, msgGet_foldl_processPR]
  simp [msgGet, objFind, emptyDigest]

/-! ## Helper lemmas for the nonemptiness invariant of digests -/

theorem mem_objSet {β : Type} {m : List (String × β)} {k : String} {v : β}
    {p : String × β} (hp : p ∈ objSet m k v) : p ∈ m ∨ p = (k, v) := by
  induction m with
  | nil => simpa [objSet] using hp
  | cons q rest ih =>
    obtain ⟨k2, v2⟩ := q
    by_cases h : k2 = k
    · subst h
      simp only [objSet, if_pos rfl] at hp
      rcases List.mem_cons.mp hp with rfl | h2
      · right; rfl
      · left; exact List.mem_cons_of_mem _ h2
    · simp only [objSet, if_neg h] at hp
      rcases List.mem_cons.mp hp with rfl | h2
      · left; exact List.mem_cons_self _ _
      · rcases ih h2 with hm | he
        · left; exact List.mem_cons_of_mem _ hm
        · right; exact he

/-- An individual-message entry with at least one nonempty sequence. -/
def entryNonempty (p : String × Digest) : Prop :=
  p.2.assignedPRs ≠ [] ∨ p.2.approvedPRs ≠ [] ∨
    p.2.changesRequestedPRs ≠ []

theorem inv_pushAssigned {m : List (String × Digest)} (u : String)
    (pr : PullRequest) (h : ∀ p ∈ m, entryNonempty p) :
    ∀ p ∈ pushAssigned m u pr, entryNonempty p := by
  intro p hp
  rcases mem_objSet hp with hm | rfl
  · exact h p hm
  · left; simp

theorem inv_pushApproved {m : List (String × Digest)} (u : String)
    (pr : PullRequest) (h : ∀ p ∈ m, entryNonempty p) :
    ∀ p ∈ pushApproved m u pr, entryNonempty p := by
  intro p hp
  rcases mem_objSet hp with hm | rfl
  · exact h p hm
  · right; left; simp

theorem inv_pushCR {m : List (String × Digest)} (u : String)
    (pr : PullRequest) (h : ∀ p ∈ m, entryNonempty p) :
    ∀ p ∈ pushCR m u pr, entryNonempty p := by
  intro p hp
  rcases mem_objSet hp with hm | rfl
  · exact h p hm
  · right; right; simp

theorem inv_foldAssign (slackMap : String → Option String)
    (pr : PullRequest) (rs : List String) :
    ∀ m : List (String × Digest), (∀ p ∈ m, entryNonempty p) →
      ∀ p ∈ rs.foldl (fun acc a =>
          match slackMap a with
          | some w => pushAssigned acc w pr
          | none => acc) m, entryNonempty p := by
  induction rs with
  | nil => intro m h; simpa using h
  | cons a rest ih =>
    intro m h
    rw [List.foldl_cons]
    cases hsa : slackMap a with
    | none => simpa only [hsa] using ih m h
    | some w => simpa only [hsa] using ih _ (inv_pushAssigned w pr h)

theorem inv_authorPushApproved (slackMap : String → Option String)
    (threshold thresholdDate : Int) {m : List (String × Digest)}
    (pr : PullRequest) (h : ∀ p ∈ m, entryNonempty p) :
    ∀ p ∈ authorPushApproved slackMap threshold thresholdDate m pr,
      entryNonempty p := by
  unfold authorPushApproved
  by_cases hc : categorize threshold thresholdDate pr = Category.approved
  · rw [if_pos hc]
    cases hsa : slackMap pr.author with
    | none => exact h
    | some w => exact inv_pushApproved w pr h
  · rw [if_neg hc]
    exact h

theorem inv_authorPushCR (slackMap : String → Option String)
    (threshold thresholdDate : Int) {m : List (String × Digest)}
    (pr : PullRequest) (h : ∀ p ∈ m, entryNonempty p) :
    ∀ p ∈ authorPushCR slackMap threshold thresholdDate m pr,
      entryNonempty p := by
  unfold authorPushCR
  by_cases hc : categorize threshold thresholdDate pr =
      Category.changesRequested
  · rw [if_pos hc]
    cases hsa : slackMap pr.author with
    | none => exact h
    | some w => exact inv_pushCR w pr h
  · rw [if_neg hc]
    exact h

theorem inv_processPR (slackMap : String → Option String)
    (teamMembers : List String) (threshold thresholdDate : Int)
    (m : List (String × Digest)) (pr : PullRequest)
    (h : ∀ p ∈ m, entryNonempty p) :
    ∀ p ∈ processPR slackMap teamMembers threshold thresholdDate m pr,
      entryNonempty p := by
  unfold processPR
  exact inv_authorPushCR slackMap threshold thresholdDate pr
    (inv_authorPushApproved slackMap threshold thresholdDate pr
      (inv_foldAssign slackMap pr
        (pr.requested_reviewers.filter (fun r => teamMembers.contains r))
        m h))

theorem inv_individualMessages (slackMap : String → Option String)
    (teamMembers : List String) (threshold thresholdDate : Int)
    (prs : List PullRequest) :
    ∀ p ∈ individualMessages slackMap teamMembers threshold thresholdDate
        prs, entryNonempty p := by
  rw [individualMessages]
  generalize hstart : ([] : List (String × Digest)) = m
  have hbase : ∀ p ∈ m, entryNonempty p := by rw [← hstart]; simp
  clear hstart
  induction prs generalizing m with
  | nil => simpa using hbase
  | cons pr rest ih =>
    rw [List.foldl_cons]
    exact ih _ (inv_processPR slackMap teamMembers threshold thresholdDate
      m pr hbase)

/-! ## Claim C1: changes-requested is terminal -/

/-- Claim C1: for every PR, if the latest-per-reviewer reduction of its
reviews contains at least one review with state `CHANGES_REQUESTED`, the
classifier assigns `changesRequested`, for every approval threshold and
every age-threshold date (hence regardless of retained approvals and of
age); no later classification step is consulted. -/
theorem changesRequested_terminal (threshold thresholdDate : Int)
    (pr : PullRequest)
    (h : ∃ r ∈ latestReviews pr.reviews, r.state = "CHANGES_REQUESTED") :
    categorize threshold thresholdDate pr = Category.changesRequested := by
  have hb : hasChangesRequested pr.reviews = true := by
    rcases h with ⟨r, hr, hs⟩
    simp only [hasChangesRequested, List.any_eq_true]
    exact ⟨r, hr, by simp [hs]⟩
  simp [categorize, hb]

/-- Concrete PR for the C1 witness: one retained approval and one retained
changes-requested review. -/
def prC1 : PullRequest :=
  ⟨"r", 1, "alice", 0, false, [], [],
    [⟨"bob", "APPROVED", 5⟩, ⟨"carol", "CHANGES_REQUESTED", 5⟩]⟩

/-- Witness for C1: with an approval present and threshold 0 (so the
approval branch would fire), changes-requested still wins. -/
theorem changesRequested_terminal_witness :
    (∃ r ∈ latestReviews prC1.reviews, r.state = "CHANGES_REQUESTED") ∧
      categorize 0 0 prC1 = Category.changesRequested :=
  ⟨by decide, changesRequested_terminal 0 0 prC1 (by decide)⟩

/-! ## Claim C2: the relevance filter -/

/-- Claim C2: a fetched PR is in the matching set iff it is non-draft and
(its author is a tracked member, or some directly-requested reviewer is a
tracked member, or some requested team is a tracked team). In particular a
draft PR is excluded unconditionally, even when its author is tracked. -/
theorem relevance_iff (teamMembers teams : List String)
    (prs : List PullRequest) (pr : PullRequest) :
    pr ∈ matchingPRs teamMembers teams prs ↔
      pr ∈ prs ∧ pr.draft = false ∧
        (pr.author ∈ teamMembers ∨
          (∃ r ∈ pr.requested_reviewers, r ∈ teamMembers) ∨
          (∃ t ∈ pr.requested_teams, t ∈ teams)) := by
  cases hd : pr.draft <;>
    simp [matchingPRs, List.mem_filter, prIncluded, hd, List.any_eq_true,
      or_assoc]

/-! ## Claim C3: a configured approval threshold of 0 -/

/-- Concrete PR for C3: relevant, no reviews at all, age below any
threshold. -/
def prC3 : PullRequest := ⟨"r", 3, "alice", 0, false, [], [], []⟩

/-- Counterexample to C3 as stated: with a configured threshold of 0 the
effective threshold is the default 2 (`parseInt(...) || 2` treats the
parsed 0 as falsy), and a relevant PR without changes requested is
classified `other`, not `approved`. -/
theorem threshold_zero_counterexample :
    approvalThreshold (some 0) = 2 ∧
      hasChangesRequested prC3.reviews = false ∧
      categorize (approvalThreshold (some 0)) 0 prC3 = Category.other := by
  decide

/-- Claim C3 amended: the classifier comparison itself honours a threshold
value of 0 (any PR without changes requested is `approved`), but the
configuration parsing replaces a configured 0 by the default 2, so a
configured threshold of 0 never reaches the classifier. -/
theorem threshold_zero_amended :
    approvalThreshold (some 0) = 2 ∧
      ∀ (thresholdDate : Int) (pr : PullRequest),
        hasChangesRequested pr.reviews = false →
        categorize 0 thresholdDate pr = Category.approved := by
  refine ⟨by decide, ?_⟩
  intro td pr h
  simp [categorize, h, Int.natCast_nonneg]

/-- Witness for the amended C3 at a concrete zero-review PR. -/
theorem threshold_zero_amended_witness :
    approvalThreshold (some 0) = 2 ∧ categorize 0 0 prC3 = Category.approved :=
  ⟨threshold_zero_amended.1, threshold_zero_amended.2 0 prC3 (by decide)⟩

/-! ## Claim C4: timestamp ties in the latest-per-reviewer reduction -/

/-- First equal-timestamp review of the C4 counterexample. -/
def rvC4a : Review := ⟨"alice", "APPROVED", 100⟩

/-- Second equal-timestamp review of the C4 counterexample. -/
def rvC4b : Review := ⟨"alice", "CHANGES_REQUESTED", 100⟩

/-- Counterexample to C4 as stated: for a reviewer with two reviews at
exactly equal timestamps, the reduction retains the FIRST encountered
record, not the last (the comparison at `src/app.js:144` is strict). -/
theorem tie_first_wins_counterexample :
    rvC4a.reviewer = rvC4b.reviewer ∧
      rvC4a.submitted_at = rvC4b.submitted_at ∧
      rvC4a ≠ rvC4b ∧
      latestReviews [rvC4a, rvC4b] = [rvC4a] := by
  decide

/-- Claim C4 amended: an incoming review overwrites the retained one only
when its timestamp is strictly greater; on a later-or-equal retained
timestamp the accumulator is unchanged, so for two equal-timestamp reviews
of one reviewer the first encountered is retained. -/
theorem tie_first_wins :
    (∀ (m : List (String × Review)) (prev r : Review),
        objFind m r.reviewer = some prev →
        r.submitted_at ≤ prev.submitted_at →
        latestStep m r = m) ∧
      ∀ r1 r2 : Review, r1.reviewer = r2.reviewer →
        r1.submitted_at = r2.submitted_at →
        latestReviews [r1, r2] = [r1] := by
  constructor
  · intro m prev r hf hle
    simp [latestStep, hf, not_lt.mpr hle]
  · intro r1 r2 hrev hts
    have hfind : objFind [(r1.reviewer, r1)] r2.reviewer = some r1 := by
      simp [objFind, hrev]
    have hstep : latestStep [(r1.reviewer, r1)] r2 = [(r1.reviewer, r1)] := by
      simp [latestStep, hfind, hts]
    calc latestReviews [r1, r2]
        = (latestStep [(r1.reviewer, r1)] r2).map Prod.snd := rfl
      _ = [r1] := by rw [hstep]; rfl

/-- Witness for the amended C4 at the two concrete equal-timestamp
reviews. -/
theorem tie_first_wins_witness :
    latestStep [("alice", rvC4a)] rvC4b = [("alice", rvC4a)] ∧
      latestReviews [rvC4a, rvC4b] = [rvC4a] :=
  ⟨tie_first_wins.1 [("alice", rvC4a)] rvC4a rvC4b (by decide) (by decide),
    tie_first_wins.2 rvC4a rvC4b (by decide) (by decide)⟩

/-! ## Claim C5: the age comparison is strict -/

/-- Concrete PR for C5: relevant, no reviews, created at epoch 0. -/
def prC5 : PullRequest := ⟨"r", 5, "alice", 0, false, [], [], []⟩

/-- Counterexample to C5 as stated: a PR whose age equals the age threshold
exactly (now − created = 7 days, threshold 7 days) is classified `other`,
not `old`, because `createdAt < oldPRThresholdDate` is strict. -/
theorem age_equal_counterexample :
    7 * msPerDay - prC5.created_at = 7 * msPerDay ∧
      oldPRThresholdDate (7 * msPerDay) 7 = prC5.created_at ∧
      categorize 2 (oldPRThresholdDate (7 * msPerDay) 7) prC5 =
        Category.other := by
  decide

/-- Claim C5 amended: for a PR with no retained changes-requested review
and fewer retained approvals than the threshold, the category is `old` iff
now − creation timestamp is STRICTLY greater than the age threshold;
equality yields `other`. -/
theorem old_iff_strictly_older (now days threshold : Int) (pr : PullRequest)
    (hcr : hasChangesRequested pr.reviews = false)
    (happ : (approvalsCount pr.reviews : Int) < threshold) :
    (categorize threshold (oldPRThresholdDate now days) pr = Category.old ↔
      days * msPerDay < now - pr.created_at) := by
  have hmain : categorize threshold (oldPRThresholdDate now days) pr =
      if pr.created_at < now - days * msPerDay then Category.old
      else Category.other := by
    simp [categorize, hcr, oldPRThresholdDate, not_le.mpr happ]
  rw [hmain]
  by_cases h : pr.created_at < now - days * msPerDay
  · rw [if_pos h]
    exact ⟨fun _ => by omega, fun _ => rfl⟩
  · rw [if_neg h]
    exact ⟨fun hx => absurd hx (by decide), fun hx => (h (by omega)).elim⟩

/-- Witness for the amended C5: a PR strictly older than the threshold
(8 days against 7) is classified `old`. -/
theorem old_iff_strictly_older_witness :
    hasChangesRequested prC5.reviews = false ∧
      (approvalsCount prC5.reviews : Int) < 2 ∧
      (categorize 2 (oldPRThresholdDate (8 * msPerDay) 7) prC5 =
          Category.old ↔
        7 * msPerDay < 8 * msPerDay - prC5.created_at) :=
  ⟨by decide, by decide,
    old_iff_strictly_older (8 * msPerDay) 7 2 prC5 (by decide) (by decide)⟩

/-! ## Claim C6: zero-review PRs -/

/-- Concrete PR for C6: relevant with an empty review list. -/
def prC6 : PullRequest := ⟨"r", 6, "alice", 0, false, [], [], []⟩

/-- Counterexample to C6 as stated: a negative configured threshold (-1)
passes `parseInt(...) || 2` unchanged, and a zero-review PR is then
classified `approved`. -/
theorem zero_reviews_counterexample :
    prC6.reviews = [] ∧ approvalThreshold (some (-1)) = -1 ∧
      categorize (approvalThreshold (some (-1))) 0 prC6 =
        Category.approved := by
  decide

/-- Claim C6 amended: whenever the effective approval threshold is at
least 1 — which holds for every non-negative configured value, since
parsing maps 0 and unparsable values to the default 2 — a zero-review PR is
classified `old` or `other`, never `approved` or `changesRequested`; only a
negative configured threshold (which parsing passes through) violates
this. -/
theorem zero_reviews_amended :
    (∀ n : Int, 0 ≤ n → 1 ≤ approvalThreshold (some n)) ∧
      ∀ (threshold thresholdDate : Int) (pr : PullRequest),
        pr.reviews = [] → 1 ≤ threshold →
        (categorize threshold thresholdDate pr = Category.old ∨
          categorize threshold thresholdDate pr = Category.other) := by
  constructor
  · intro n hn
    have hv : approvalThreshold (some n) = if n = 0 then 2 else n := rfl
    rw [hv]
    by_cases h : n = 0
    · rw [if_pos h]; omega
    · rw [if_neg h]; omega
  · intro th td pr hrev hth
    have hcr : hasChangesRequested pr.reviews = false := by
      rw [hrev]; rfl
    have hcount : approvalsCount pr.reviews = 0 := by
      rw [hrev]; rfl
    simp only [categorize, hcr, hcount, Bool.false_eq_true, if_false,
      Nat.cast_zero]
    rw [if_neg (by omega : ¬ th ≤ (0 : Int))]
    by_cases h : pr.created_at < td
    · left; rw [if_pos h]
    · right; rw [if_neg h]

/-- Witness for the amended C6 at a concrete zero-review PR and
threshold 2. -/
theorem zero_reviews_amended_witness :
    1 ≤ approvalThreshold (some 5) ∧
      (categorize 2 0 prC6 = Category.old ∨
        categorize 2 0 prC6 = Category.other) :=
  ⟨zero_reviews_amended.1 5 (by decide),
    zero_reviews_amended.2 2 0 prC6 (by decide) (by decide)⟩

/-! ## Claim C7: direct-review-request digest entries -/

/-- Concrete PR for the C7 counterexample: relevant through its tracked
author, with a requested reviewer who is not a tracked member. -/
def prC7 : PullRequest := ⟨"r", 7, "alice", 0, false, ["bob"], [], []⟩

/-- Resolution map for C7: both handles resolve to known identities. -/
def slackMapC7 : String → Option String :=
  fun h =>
    if h = "bob" then some "UBOB"
    else if h = "alice" then some "UALICE" else none

/-- Counterexample to C7 as stated: `bob` is individually requested on a
relevant PR and resolves to the known identity `UBOB`, yet the digest loop
emits nothing for `UBOB` (and nothing at all), because requested reviewers
are first filtered to tracked team members (`src/app.js:243`) and `bob` is
not tracked. -/
theorem assigned_untracked_counterexample :
    prIncluded ["alice"] [] prC7 = true ∧
      "bob" ∈ prC7.requested_reviewers ∧
      slackMapC7 "bob" = some "UBOB" ∧
      individualMessages slackMapC7 ["alice"] 2 0 [prC7] = [] :=
  ⟨by decide, by decide, rfl, rfl⟩

/-- Claim C7 amended: for every relevant PR and every individually
requested reviewer WHO IS A TRACKED TEAM MEMBER and resolves to a known
external identity, the PR is appended to that identity's
direct-review-request sequence, regardless of the PR's category (the
threshold and threshold date are arbitrary); reviewers outside the tracked
member list get no entry even when they resolve. -/
theorem assigned_tracked_amended (slackMap : String → Option String)
    (teamMembers : List String) (threshold thresholdDate : Int)
    (prs : List PullRequest) (pr : PullRequest) (r u : String)
    (hpr : pr ∈ prs) (hr : r ∈ pr.requested_reviewers)
    (htm : r ∈ teamMembers) (hu : slackMap r = some u) :
    pr ∈ (msgGet (individualMessages slackMap teamMembers threshold
        thresholdDate prs) u).assignedPRs := by
  rw [msgGet_individualMessages]
  have hmem : r ∈ (pr.requested_reviewers.filter
      (fun x => teamMembers.contains x)).filter
        (fun x => slackMap x == some u) := by
    simp [List.mem_filter, hr, htm, hu]
  have hpos : 0 < countAssigned slackMap teamMembers u pr :=
    List.length_pos.mpr (List.ne_nil_of_mem hmem)
  refine List.mem_flatten.mpr
    ⟨List.replicate (countAssigned slackMap teamMembers u pr) pr, ?_, ?_⟩
  · exact List.mem_map.mpr ⟨pr, hpr, rfl⟩
  · exact List.mem_replicate.mpr ⟨by omega, rfl⟩

/-- Concrete PR for the C7 witness: requested reviewer `bob` is tracked
and resolves. -/
def prC7w : PullRequest := ⟨"r", 71, "alice", 0, false, ["bob"], [], []⟩

/-- Witness for the amended C7 at a concrete tracked, resolving
reviewer. -/
theorem assigned_tracked_amended_witness :
    prC7w ∈ (msgGet (individualMessages slackMapC7 ["bob"] 2 0 [prC7w])
        "UBOB").assignedPRs :=
  assigned_tracked_amended slackMapC7 ["bob"] 2 0 [prC7w] prC7w "bob" "UBOB"
    (by decide) (by decide) (by decide) rfl

/-! ## Claim C8: one global order everywhere -/

/-- Claim C8: the relevant-PR list is sorted ascending by creation
timestamp, ties preserve discovery order (the filter of any tie group is
unchanged by the sort), each per-category summary sequence is exactly the
order-preserving filter of that global order, and each sequence of every
recipient digest is the order-preserving restriction of that global order
(a filter for the two author sequences, a per-PR replicated block for the
assigned sequence) — no per-category or per-digest re-sort occurs. -/
theorem global_order_preserved (teamMembers teams : List String)
    (slackMap : String → Option String) (threshold thresholdDate : Int)
    (prs : List PullRequest) :
    (sortedMatchingPRs teamMembers teams prs).Pairwise
        (fun a b => a.created_at ≤ b.created_at) ∧
      (∀ k : Int,
        (sortedMatchingPRs teamMembers teams prs).filter
            (fun p => p.created_at == k) =
          (matchingPRs teamMembers teams prs).filter
            (fun p => p.created_at == k)) ∧
      categorizeAll threshold thresholdDate
          (sortedMatchingPRs teamMembers teams prs) =
        ⟨(sortedMatchingPRs teamMembers teams prs).filter
            (fun pr =>
              categorize threshold thresholdDate pr == Category.old),
          (sortedMatchingPRs teamMembers teams prs).filter
            (fun pr =>
              categorize threshold thresholdDate pr == Category.approved),
          (sortedMatchingPRs teamMembers teams prs).filter
            (fun pr =>
              categorize threshold thresholdDate pr ==
                Category.changesRequested),
          (sortedMatchingPRs teamMembers teams prs).filter
            (fun pr =>
              categorize threshold thresholdDate pr == Category.other)⟩ ∧
      ∀ u : String,
        msgGet (individualMessages slackMap teamMembers threshold
            thresholdDate (sortedMatchingPRs teamMembers teams prs)) u =
          ⟨((sortedMatchingPRs teamMembers teams prs).map (fun pr =>
              List.replicate (countAssigned slackMap teamMembers u pr)
                pr)).flatten,
            (sortedMatchingPRs teamMembers teams prs).filter
              (fun pr =>
                (categorize threshold thresholdDate pr ==
                    Category.approved) &&
                  (slackMap pr.author == some u)),
            (sortedMatchingPRs teamMembers teams prs).filter
              (fun pr =>
                (categorize threshold thresholdDate pr ==
                    Category.changesRequested) &&
                  (slackMap pr.author == some u))⟩ :=
  ⟨sortByCreated_sorted _, fun k => filter_sortByCreated _ k,
    categorizeAll_eq_filters _ _ _,
    fun u => msgGet_individualMessages _ _ _ _ _ u⟩

/-! ## Claim C9: no digest with all three sequences empty -/

/-- Claim C9: every entry the digest loop emits has at least one nonempty
sequence; an identity with no contributing PR never appears in the
output mapping. -/
theorem digest_never_all_empty (slackMap : String → Option String)
    (teamMembers : List String) (threshold thresholdDate : Int)
    (prs : List PullRequest) :
    ∀ p ∈ individualMessages slackMap teamMembers threshold thresholdDate
        prs,
      p.2.assignedPRs ≠ [] ∨ p.2.approvedPRs ≠ [] ∨
        p.2.changesRequestedPRs ≠ [] :=
  fun p hp => inv_individualMessages slackMap teamMembers threshold
    thresholdDate prs p hp

/-- Concrete PR for the C9 witness. -/
def prC9 : PullRequest := ⟨"r", 9, "alice", 0, false, ["bob"], [], []⟩

/-- Resolution map for the C9 witness. -/
def slackMapC9 : String → Option String :=
  fun h => if h = "bob" then some "UBOB" else none

/-- Witness for C9 at a concrete run emitting one entry. -/
theorem digest_never_all_empty_witness :
    (("UBOB", (⟨[prC9], [], []⟩ : Digest)) ∈
        individualMessages slackMapC9 ["bob"] 2 0 [prC9]) ∧
      ((⟨[prC9], [], []⟩ : Digest).assignedPRs ≠ [] ∨
        (⟨[prC9], [], []⟩ : Digest).approvedPRs ≠ [] ∨
        (⟨[prC9], [], []⟩ : Digest).changesRequestedPRs ≠ []) := by
  have hmem : ("UBOB", (⟨[prC9], [], []⟩ : Digest)) ∈
      individualMessages slackMapC9 ["bob"] 2 0 [prC9] := by
    rw [show individualMessages slackMapC9 ["bob"] 2 0 [prC9] =
      [("UBOB", (⟨[prC9], [], []⟩ : Digest))] from rfl]
    exact List.mem_singleton.mpr rfl
  exact ⟨hmem,
    digest_never_all_empty slackMapC9 ["bob"] 2 0 [prC9] _ hmem⟩

/-! ## Claim C10: no fail-fast validation of malformed input -/

/-- Concrete PR for C10: one retained commented review, zero approvals. -/
def prC10 : PullRequest :=
  ⟨"r", 10, "alice", 0, false, [], [], [⟨"bob", "COMMENTED", 1⟩]⟩

/-- Counterexample to C10 as stated: the malformed configuration value -5
is accepted by the parsing and the categorisation loop completes normally,
placing the PR in the approved bucket — a silently degraded classification
instead of an invalid-input error (the embedding is total: no error path
exists in the code). -/
theorem no_validation_counterexample :
    approvalThreshold (some (-5)) = -5 ∧
      categorizeAll (-5) 0 [prC10] = ⟨[], [prC10], [], []⟩ := by
  decide

/-- Claim C10 amended: the core performs no input validation and has no
error path: every negative configured threshold passes parsing unchanged,
and under a negative threshold every PR without changes requested is
silently classified `approved` rather than rejected with an error. -/
theorem no_validation_amended :
    (∀ n : Int, n < 0 → approvalThreshold (some n) = n) ∧
      ∀ (threshold thresholdDate : Int) (pr : PullRequest),
        threshold < 0 → hasChangesRequested pr.reviews = false →
        categorize threshold thresholdDate pr = Category.approved := by
  constructor
  · intro n hn
    have hv : approvalThreshold (some n) = if n = 0 then 2 else n := rfl
    rw [hv, if_neg (by omega)]
  · intro th td pr hth hcr
    have hle : th ≤ (approvalsCount pr.reviews : Int) :=
      le_trans hth.le (Int.natCast_nonneg _)
    simp [categorize, hcr, hle]

/-- Witness for the amended C10 at threshold -7 and a concrete PR. -/
theorem no_validation_amended_witness :
    approvalThreshold (some (-7)) = -7 ∧
      categorize (-7) 0 prC10 = Category.approved :=
  ⟨no_validation_amended.1 (-7) (by decide),
    no_validation_amended.2 (-7) 0 prC10 (by decide) (by decide)⟩

end PrPoker
